import Mathlib

/-
Verification of the niceconfig layered-configuration loader
(src/niceconfig/config.py) against its natural-language specification.

The embedding models YAML-representable configuration data as the
inductive type Value, a Python dict as an insertion-ordered association
list of string keys, and each function of config.py as a Lean function
of the same name.  Fallible Python code (code that can raise) returns
Except PyErr.  Two embeddings are given: a structural one, in which a
nested mutation is written back along the traversed path (sufficient
for every property about the contents of the store itself), and, for
the aliasing claim only, a heap embedding with explicit addresses that
captures Python object sharing.
-/

namespace NiceConfig

/-- Python exception kinds raised by the modelled code paths. -/
inductive PyErr where
  | keyError
  | typeError
  | valueError
  | attributeError
  deriving DecidableEq, Repr

/-- A YAML-representable Python value: strings, ints, booleans, lists and
dicts.  The extra constructor `method` stands for a bound-method object
obtained from attribute lookup on a built-in value; it never occurs inside
a store, only transiently inside `rsetattr`. -/
inductive Value where
  | str (s : String)
  | int (n : Int)
  | bool (b : Bool)
  | vlist (l : List Value)
  | dict (entries : List (String × Value))
  | method

/-- A Python dict with string keys, as an insertion-ordered association
list.  Well-formed Python dicts have pairwise-distinct keys. -/
abbrev ConfigDict := List (String × Value)

/-- Python dict lookup `d[k]` (first matching entry, which is the only
one on well-formed dicts). -/
def lookupA : ConfigDict → String → Option Value
  | [], _ => none
  | (k, v) :: rest, key => if k = key then some v else lookupA rest key

/-- Python dict assignment `d[k] = v`: replace the value at an existing
key, keeping its position, else append the new key at the end. -/
def dictSet : ConfigDict → String → Value → ConfigDict
  | [], key, value => [(key, value)]
  | (k, v) :: rest, key, value =>
    if k = key then (key, value) :: rest else (k, v) :: dictSet rest key value

/-- Python `dict.update(m)` (the plain built-in update used by the code:
ConfigDict does not override `update`): assign every entry of `m` in
order.  Top-level values of `m` replace existing ones wholesale. -/
def dictUpdate (d m : ConfigDict) : ConfigDict :=
  m.foldl (fun acc kv => dictSet acc kv.1 kv.2) d

/-- Structural lookup of a path in a nested value, descending through
dict entries only.  This is the observer used to state where a value
lives in a store; it is spec-side, not a function of the source. -/
def lookupPath : Value → List String → Option Value
  | v, [] => some v
  | .dict d, k :: rest =>
    match lookupA d k with
    | some v => lookupPath v rest
    | none => none
  | _, _ :: _ => none

/-- Non-dunder attribute names of the built-in `dict` type, used to model
`hasattr`/`getattr` on dict values. -/
def dictAttrNames : List String :=
  ["clear", "copy", "fromkeys", "get", "items", "keys", "pop", "popitem",
   "setdefault", "update", "values"]

/-- Non-dunder attribute names of the built-in `str` type. -/
def strAttrNames : List String :=
  ["capitalize", "casefold", "center", "count", "encode", "endswith",
   "expandtabs", "find", "format", "format_map", "index", "isalnum",
   "isalpha", "isascii", "isdecimal", "isdigit", "isidentifier", "islower",
   "isnumeric", "isprintable", "isspace", "istitle", "isupper", "join",
   "ljust", "lower", "lstrip", "maketrans", "partition", "removeprefix",
   "removesuffix", "replace", "rfind", "rindex", "rjust", "rpartition",
   "rsplit", "rstrip", "split", "splitlines", "startswith", "strip",
   "swapcase", "title", "translate", "upper", "zfill"]

/-- Non-dunder attribute names of the built-in `int` type (and hence of
`bool`, which subclasses it). -/
def intAttrNames : List String :=
  ["as_integer_ratio", "bit_count", "bit_length", "conjugate",
   "denominator", "from_bytes", "imag", "numerator", "real", "to_bytes"]

/-- Non-dunder attribute names of the built-in `list` type. -/
def listAttrNames : List String :=
  ["append", "clear", "copy", "count", "extend", "index", "insert", "pop",
   "remove", "reverse", "sort"]

/-- Class-level attributes that ConfigDict inherits from yaml.YAMLObject
in addition to the dict attributes. -/
def yamlAttrNames : List String :=
  ["from_yaml", "to_yaml", "yaml_loader", "yaml_dumper", "yaml_tag",
   "yaml_flow_style"]

/-- The YAMLObject attributes whose values are truthy (classmethods and
loader or dumper classes).  yaml_tag and yaml_flow_style are None and
hence falsy. -/
def yamlTruthyAttrNames : List String :=
  ["from_yaml", "to_yaml", "yaml_loader", "yaml_dumper"]

/-- Model of `hasattr(base, p)` for the values reachable inside
`rsetattr`.  The flag `cfg` is true when `base` is the root ConfigDict
object (which additionally carries the YAMLObject class attributes);
children of the store are plain built-in values.  Dunder attribute names
are not modelled: configuration keys are plain names. -/
def pyHasattr (cfg : Bool) : Value → String → Bool
  | .dict _, p => dictAttrNames.contains p || (cfg && yamlAttrNames.contains p)
  | .str _, p => strAttrNames.contains p
  | .int _, p => intAttrNames.contains p
  | .bool _, p => intAttrNames.contains p
  | .vlist _, p => listAttrNames.contains p
  | .method, _ => false

/-- Model of `getattr(base, p, None) if truthy`: the truthy attributes of
built-in values are bound methods (or, for ints, numeric properties; the
conflation with `method` is harmless because every later use of such an
object inside `rsetattr` raises a TypeError either way).  Returns none
when the attribute is missing or falsy, in which case the source
expression `getattr(base, path, None) or base[path]` falls through to the
item lookup. -/
def pyGetattrTruthy (cfg : Bool) : Value → String → Option Value
  | .dict _, p =>
    if dictAttrNames.contains p || (cfg && yamlTruthyAttrNames.contains p)
    then some .method else none
  | .str _, p => if strAttrNames.contains p then some .method else none
  | .int _, p => if intAttrNames.contains p then some .method else none
  | .bool _, p => if intAttrNames.contains p then some .method else none
  | .vlist _, p => if listAttrNames.contains p then some .method else none
  | .method, _ => none

/-- Model of `base[p]` for a string key `p`: dict lookup (KeyError when
absent); every non-dict base raises TypeError (string keys on str, int,
bool, list or method objects). -/
def getitemStr : Value → String → Except PyErr Value
  | .dict d, p =>
    match lookupA d p with
    | some v => .ok v
    | none => .error .keyError
  | _, _ => .error .typeError

/-- Python substring containment, for the `p in base` test on a str base. -/
def strContainsSub (s p : String) : Bool :=
  p.isEmpty || (s.splitOn p).length != 1

/-- Model of `p in base` for a string `p`: key test on dicts, substring
test on strings, element test on lists (a string equals only an equal
string element), TypeError on ints, bools and method objects. -/
def pyContainsKey : Value → String → Except PyErr Bool
  | .dict d, p => .ok ((d.map Prod.fst).contains p)
  | .str s, p => .ok (strContainsSub s p)
  | .vlist l, p =>
    .ok (l.any (fun x => match x with | .str q => q = p | _ => false))
  | _, _ => .error .typeError

/-- Embedding of `rsetattr(base, path, value)` from config.py:

  path, *child_paths = path
  if child_paths:
      new_base = getattr(base, path, None) or base[path]
      return rsetattr(new_base, child_paths, value)
  if hasattr(base, path):
      return setattr(base, path, value)
  if path in base:
      base[path] = value

`cfg` is true when `base` is the root ConfigDict object; recursive calls
descend into plain child values.  Python mutates the child dict in
place; structurally, a successful recursive result is written back at
the traversed key (the heap embedding below keeps the sharing instead).
`setattr` on the root ConfigDict instance stores an instance attribute
and leaves the mapping unchanged; on built-in instances it raises
AttributeError.  An empty path raises ValueError (unpacking an empty
sequence). -/
def rsetattr (cfg : Bool) (base : Value) : List String → Value → Except PyErr Value
  | [], _ => .error .valueError
  | [p], value =>
    if pyHasattr cfg base p then
      if cfg then .ok base else .error .attributeError
    else
      match pyContainsKey base p with
      | .error e => .error e
      | .ok true =>
        match base with
        | .dict d => .ok (.dict (dictSet d p value))
        | _ => .error .typeError
      | .ok false => .ok base
  | p :: q :: rest, value =>
    match pyGetattrTruthy cfg base p with
    | some a =>
      match rsetattr false a (q :: rest) value with
      | .error e => .error e
      | .ok _ => .ok base
    | none =>
      match getitemStr base p with
      | .error e => .error e
      | .ok child =>
        match rsetattr false child (q :: rest) value with
        | .error e => .error e
        | .ok child2 =>
          match base with
          | .dict d => .ok (.dict (dictSet d p child2))
          | _ => .ok base

/-- A key passed to ConfigDict item access: either a single string or a
list of strings (the two shapes the code is used with; a list is a
non-string Sequence). -/
inductive PyKey where
  | str (s : String)
  | list (ks : List String)

/-- Embedding of the inner loop of `ConfigDict.__getitem__` once a
non-string sequence key was received:

  key, *child_keys = keys
  if child_keys:
      return self[child_keys]
  return super().__getitem__(keys)

The recursion drops the first segment and re-runs on the same dict; a
one-element list falls through to `dict.__getitem__` with the list
itself as key, which raises TypeError (unhashable type: list).  An empty
list raises ValueError at the unpacking. -/
def ConfigDict.getitemList (d : ConfigDict) : List String → Except PyErr Value
  | [] => .error .valueError
  | [_] => .error .typeError
  | _ :: q :: rest => ConfigDict.getitemList d (q :: rest)

/-- Embedding of `ConfigDict.__getitem__`: a plain string key is a plain
dict lookup; a list key enters the sequence branch above. -/
def ConfigDict.getitem (d : ConfigDict) : PyKey → Except PyErr Value
  | .str s => getitemStr (.dict d) s
  | .list ks => ConfigDict.getitemList d ks

/-- Embedding of `ConfigDict.__setitem__`: a string key is a plain dict
assignment; a non-string sequence key is handed to `rsetattr` with the
ConfigDict itself as base.  The final match is the structural read-back
of the mutated root (rsetattr on a dict base only ever returns a dict). -/
def ConfigDict.setitem (d : ConfigDict) (keys : PyKey) (value : Value) :
    Except PyErr ConfigDict :=
  match keys with
  | .str s => .ok (dictSet d s value)
  | .list ks =>
    match rsetattr true (.dict d) ks value with
    | .error e => .error e
    | .ok (.dict d2) => .ok d2
    | .ok _ => .ok d

/-- Embedding of `Config.flatten`: depth-first traversal yielding one
(path, value) pair per non-dict leaf, in insertion order. -/
def flatten : List (String × Value) → List (List String × Value)
  | [] => []
  | (k, v) :: rest =>
    (match v with
     | .dict d => (flatten d).map (fun pv => (k :: pv.1, pv.2))
     | _ => [([k], v)]) ++ flatten rest

/-- ASCII upper-casing, the model of Python str.upper on the ASCII
configuration keys considered here. -/
def pyUpper (s : String) : String := String.mk (s.data.map Char.toUpper)

/-- Python underscore-join of a list of strings. -/
def joinU : List String → String
  | [] => ""
  | [s] => s
  | s :: r :: rest => s ++ "_" ++ joinU (r :: rest)

/-- Embedding of `Config.get_env_var_name`: the upper-cased env_prefix,
then an underscore, then the upper-cased path segments joined with
underscores.  The upper-cased env_prefix (possibly empty) is always
followed by the underscore. -/
def Config.get_env_var_name (envPre : String) (path : List String) : String :=
  pyUpper envPre ++ "_" ++ joinU (path.map pyUpper)

/-- The configuration object: its store and its env_prefix (the field is
named envPre here). -/
structure Config where
  store : ConfigDict
  envPre : String

/-- Embedding of `Config.as_env_file`: fold over the flattened store,
appending one export line per string-valued leaf and skipping every
other leaf. -/
def Config.as_env_file (c : Config) : String :=
  (flatten c.store).foldl
    (fun script pv =>
      match pv.2 with
      | .str s =>
        script ++ "export " ++ Config.get_env_var_name c.envPre pv.1 ++ "=" ++ s ++ "\n"
      | _ => script) ""

/-- A constructor-argument entry of the `files` list: a file path or an
in-memory mapping. -/
inductive Source where
  | path (p : String)
  | mapping (m : ConfigDict)

/-- Model of `Path(config_file)`: a str (or Path) argument is accepted;
a mapping argument raises TypeError (pathlib rejects non-path-like
arguments). -/
def pathCtor : Source → Except PyErr String
  | .path p => .ok p
  | .mapping _ => .error .typeError

/-- The file-overlay loop of `Config.__init__`, already iterating the
reversed list.  `fs` abstracts the filesystem and YAML parse: `fs p` is
the parsed mapping of an existing file, none when `is_file()` is false.
Each existing file is merged with the plain dict update. -/
def filesLoop (fs : String → Option ConfigDict) :
    ConfigDict → List Source → Except PyErr ConfigDict
  | st, [] => .ok st
  | st, s :: rest =>
    match pathCtor s with
    | .error e => .error e
    | .ok p =>
      match fs p with
      | some m => filesLoop fs (dictUpdate st m) rest
      | none => filesLoop fs st rest

/-- The environment-override loop of `Config.__init__`: for each
flattened defaults path whose derived variable name is set in the
process environment, assign its string value at that path through
`ConfigDict.__setitem__` (hence `rsetattr`). -/
def envLoop (env : String → Option String) (envPre : String) :
    ConfigDict → List (List String × Value) → Except PyErr ConfigDict
  | st, [] => .ok st
  | st, (p, _) :: rest =>
    match env (Config.get_env_var_name envPre p) with
    | some s =>
      match ConfigDict.setitem st (.list p) (.str s) with
      | .ok st2 => envLoop env envPre st2 rest
      | .error e => .error e
    | none => envLoop env envPre st rest

/-- Embedding of `Config.__init__(files, defaults, schema=None,
empty-default env_prefix)`: start from an empty store, `update` it with defaults,
overlay each existing file of the reversed list, then apply environment
overrides for every flattened defaults path.  `files` is taken already
in list form (the source wraps a single str or Path into a one-element
list first); `env` abstracts os.environ. -/
def Config.init (fs : String → Option ConfigDict) (files : List Source)
    (defaults : ConfigDict) (env : String → Option String) (envPre : String) :
    Except PyErr Config :=
  match filesLoop fs (dictUpdate [] defaults) files.reverse with
  | .error e => .error e
  | .ok st1 =>
    match envLoop env envPre st1 (flatten defaults) with
    | .error e => .error e
    | .ok st2 => .ok ⟨st2, envPre⟩

/-- The env-file line of a single flattened leaf: an export line for a
string value, nothing otherwise.  Spec-side observer for the env-file
property. -/
def envLine (envPre : String) (pv : List String × Value) : Option String :=
  match pv.2 with
  | .str s =>
    some ("export " ++ Config.get_env_var_name envPre pv.1 ++ "=" ++ s ++ "\n")
  | _ => none

/-- Concatenation of a list of strings. -/
def joinAll : List String → String
  | [] => ""
  | s :: rest => s ++ joinAll rest

/-- The defaults mapping of the env-override scenario of the spec. -/
def dbDefaults : ConfigDict := [("db", Value.dict [("host", Value.str "x")])]

/-- A parsed file content is admissible for the env-override scenario
when it is a well-formed dict and, if it supplies key db at all, that
value is a mapping that itself supplies a value for the path db.host. -/
def dbFileOk (m : ConfigDict) : Prop :=
  (m.map Prod.fst).Nodup ∧
    (lookupA m "db" = none ∨
      ∃ d, lookupA m "db" = some (.dict d) ∧ (lookupA d "host").isSome)

/-- Invariant carried through construction: the store maps db to a
mapping that has key host. -/
def dbInv (st : ConfigDict) : Prop :=
  ∃ dd, lookupA st "db" = some (.dict dd) ∧ (lookupA dd "host").isSome

/-- The example store of the env-file property: one string leaf, one int
leaf, one bool leaf. -/
def c6store : ConfigDict :=
  [("a", Value.str "hi"), ("b", Value.int 5), ("c", Value.bool true)]

/-- Concrete filesystem of the first-file-wins witness. -/
def c3fs : String → Option ConfigDict := fun p =>
  if p = "f1" then some [("a", Value.int 2)]
  else if p = "f2" then some [("a", Value.int 3)] else none

/-- Empty filesystem. -/
def noFs : String → Option ConfigDict := fun _ => none

/-- Empty process environment. -/
def noEnv : String → Option String := fun _ => none

/-- Process environment holding only APP_DB_HOST=y. -/
def dbEnv : String → Option String := fun n =>
  if n = "APP_DB_HOST" then some "y" else none

/-- Process environment holding only the unrelated variable ZZZ=1. -/
def zzzEnv : String → Option String := fun n =>
  if n = "ZZZ" then some "1" else none

/-
Heap embedding, used for the ownership/aliasing claim.  Dict objects
live at explicit addresses; a value can be a reference to a dict, so
Python sharing is captured exactly: mutating a dict through one
reference is visible through every other.
-/

/-- A heap value: a scalar, a reference to a dict object on the heap, or
a transient bound-method object. -/
inductive HValue where
  | str (s : String)
  | int (n : Int)
  | bool (b : Bool)
  | ref (a : Nat)
  | method
  deriving DecidableEq, Repr

/-- A dict object on the heap. -/
abbrev HDict := List (String × HValue)

/-- The heap: dict objects indexed by address. -/
abbrev Heap := List HDict

/-- Read the dict object at an address. -/
def heapGetD (h : Heap) (a : Nat) : Option HDict := h.get? a

/-- Replace the dict object at an address. -/
def heapSetD (h : Heap) (a : Nat) (d : HDict) : Heap := h.set a d

/-- Heap-level dict lookup. -/
def lookupAH : HDict → String → Option HValue
  | [], _ => none
  | (k, v) :: rest, key => if k = key then some v else lookupAH rest key

/-- Heap-level dict assignment. -/
def dictSetH : HDict → String → HValue → HDict
  | [], key, value => [(key, value)]
  | (k, v) :: rest, key, value =>
    if k = key then (key, value) :: rest else (k, v) :: dictSetH rest key value

/-- Heap-level dict.update: the values (including dict references) are
copied entry-wise, so nested dict objects become shared. -/
def dictUpdateH (d m : HDict) : HDict :=
  m.foldl (fun acc kv => dictSetH acc kv.1 kv.2) d

/-- Heap-level hasattr model, as in the structural embedding. -/
def pyHasattrH (cfg : Bool) : HValue → String → Bool
  | .ref _, p => dictAttrNames.contains p || (cfg && yamlAttrNames.contains p)
  | .str _, p => strAttrNames.contains p
  | .int _, p => intAttrNames.contains p
  | .bool _, p => intAttrNames.contains p
  | .method, _ => false

/-- Heap-level truthy-getattr model, as in the structural embedding. -/
def pyGetattrTruthyH (cfg : Bool) : HValue → String → Option HValue
  | .ref _, p =>
    if dictAttrNames.contains p || (cfg && yamlTruthyAttrNames.contains p)
    then some .method else none
  | .str _, p => if strAttrNames.contains p then some .method else none
  | .int _, p => if intAttrNames.contains p then some .method else none
  | .bool _, p => if intAttrNames.contains p then some .method else none
  | .method, _ => none

/-- Heap-level `base[p]`; a dangling reference yields ValueError and is
unreachable on the well-formed heaps used here. -/
def getitemStrH (h : Heap) : HValue → String → Except PyErr HValue
  | .ref a, p =>
    match heapGetD h a with
    | some d =>
      match lookupAH d p with
      | some v => .ok v
      | none => .error .keyError
    | none => .error .valueError
  | _, _ => .error .typeError

/-- Heap-level `p in base`. -/
def pyContainsKeyH (h : Heap) : HValue → String → Except PyErr Bool
  | .ref a, p =>
    match heapGetD h a with
    | some d => .ok ((d.map Prod.fst).contains p)
    | none => .error .valueError
  | .str s, p => .ok (strContainsSub s p)
  | _, _ => .error .typeError

/-- Heap embedding of `rsetattr`: identical control flow to the
structural one, but the final dict assignment mutates the heap at the
object address reached by the traversal, so every alias of that object
observes the change.  No write-back is needed. -/
def rsetattrH (h : Heap) (cfg : Bool) (base : HValue) :
    List String → HValue → Except PyErr Heap
  | [], _ => .error .valueError
  | [p], value =>
    if pyHasattrH cfg base p then
      if cfg then .ok h else .error .attributeError
    else
      match pyContainsKeyH h base p with
      | .error e => .error e
      | .ok true =>
        match base with
        | .ref a =>
          match heapGetD h a with
          | some d => .ok (heapSetD h a (dictSetH d p value))
          | none => .error .valueError
        | _ => .error .typeError
      | .ok false => .ok h
  | p :: q :: rest, value =>
    match pyGetattrTruthyH cfg base p with
    | some a => rsetattrH h false a (q :: rest) value
    | none =>
      match getitemStrH h base p with
      | .error e => .error e
      | .ok child => rsetattrH h false child (q :: rest) value

/-- Heap embedding of `Config.flatten`, reading nested dict objects
through the heap.  The fuel argument only forces termination (Python
itself would diverge on a cyclic heap); any fuel bounding the traversal
size reproduces the Python result on the acyclic heaps used here. -/
def flattenH (h : Heap) : Nat → HDict → List (List String × HValue)
  | 0, _ => []
  | _ + 1, [] => []
  | fuel + 1, (k, v) :: rest =>
    (match v with
     | .ref a =>
       match heapGetD h a with
       | some d => (flattenH h fuel d).map (fun pv => (k :: pv.1, pv.2))
       | none => [([k], v)]
     | _ => [([k], v)]) ++ flattenH h fuel rest

/-- Heap embedding of the environment-override loop, writing through the
store reference. -/
def envLoopH (env : String → Option String) (envPre : String) (storeAddr : Nat) :
    Heap → List (List String × HValue) → Except PyErr Heap
  | h, [] => .ok h
  | h, (p, _) :: rest =>
    match env (Config.get_env_var_name envPre p) with
    | some s =>
      match rsetattrH h true (.ref storeAddr) p (.str s) with
      | .ok h2 => envLoopH env envPre storeAddr h2 rest
      | .error e => .error e
    | none => envLoopH env envPre storeAddr h rest

/-- Heap embedding of `Config.__init__`.  A fresh empty store dict is
allocated at the end of the heap; `store.update(defaults)` copies the
top-level entries of the defaults object of the caller entry-wise, sharing
every nested dict by reference; parsed file mappings (already
heap-resident) are overlaid in reverse; finally the environment loop
overrides each flattened defaults path through the store reference.
The flattened path list is computed up front; the env loop only ever
replaces leaf values, which cannot change the sequence of paths the
lazily evaluated Python generator yields.  Returns the final heap and
the store address. -/
def Config.initH (h0 : Heap) (defaultsAddr : Nat) (files : List HDict)
    (env : String → Option String) (envPre : String) (fuel : Nat) :
    Except PyErr (Heap × Nat) :=
  match heapGetD (h0 ++ [[]]) defaultsAddr with
  | none => .error .valueError
  | some ddef =>
    match envLoopH env envPre h0.length
        (files.reverse.foldl
          (fun h m =>
            match heapGetD h h0.length with
            | some st => heapSetD h h0.length (dictUpdateH st m)
            | none => h)
          (heapSetD (h0 ++ [[]]) h0.length (dictUpdateH [] ddef)))
        (flattenH
          (files.reverse.foldl
            (fun h m =>
              match heapGetD h h0.length with
              | some st => heapSetD h h0.length (dictUpdateH st m)
              | none => h)
            (heapSetD (h0 ++ [[]]) h0.length (dictUpdateH [] ddef)))
          fuel ddef) with
    | .error e => .error e
    | .ok h4 => .ok (h4, h0.length)

/-- Read a path through the heap, from a starting value. -/
def readPathH (h : Heap) : HValue → List String → Option HValue
  | v, [] => some v
  | .ref a, k :: rest =>
    match heapGetD h a with
    | some d =>
      match lookupAH d k with
      | some v => readPathH h v rest
      | none => none
    | none => none
  | _, _ :: _ => none

/-- Initial heap of the aliasing scenario: the defaults dict of the caller at
address 0 holds db as a reference to the nested dict at address 1, which
holds host=x. -/
def c10heap : Heap := [[("db", HValue.ref 1)], [("host", HValue.str "x")]]

/-- The heap after construction in the aliasing scenario: the nested
dict at address 1 was mutated through the store, and the store at
address 2 shares it with the defaults at address 0. -/
def c10heapAfter (v : String) : Heap :=
  [[("db", HValue.ref 1)], [("host", HValue.str v)], [("db", HValue.ref 1)]]

/-- Data of a string concatenation. -/
theorem strAppend_data (a b : String) : (a ++ b).data = a.data ++ b.data := by
  cases a; cases b; rfl

/-- String concatenation is associative. -/
theorem strAppend_assoc (a b c : String) : a ++ b ++ c = a ++ (b ++ c) := by
  apply String.ext
  simp [strAppend_data]

/-- The empty string is a right identity of concatenation. -/
theorem strAppend_empty (a : String) : a ++ "" = a := by
  apply String.ext
  simp [strAppend_data]

/-- The empty string is a left identity of concatenation. -/
theorem strEmpty_append (a : String) : "" ++ a = a := by
  apply String.ext
  simp [strAppend_data]

/-- Assigning key k makes k map to the assigned value. -/
theorem lookupA_dictSet_eq (d : ConfigDict) (k : String) (v : Value) :
    lookupA (dictSet d k v) k = some v := by
  induction d with
  | nil => simp [dictSet, lookupA]
  | cons kv rest ih =>
    obtain ⟨k1, v1⟩ := kv
    by_cases h : k1 = k
    · simp [dictSet, h, lookupA]
    · simp [dictSet, h, lookupA, ih]

/-- Assigning key k leaves every other key unchanged. -/
theorem lookupA_dictSet_ne (d : ConfigDict) (k k2 : String) (v : Value)
    (h : k2 ≠ k) : lookupA (dictSet d k v) k2 = lookupA d k2 := by
  have h2 : k ≠ k2 := Ne.symm h
  induction d with
  | nil => simp [dictSet, lookupA, h2]
  | cons kv rest ih =>
    obtain ⟨k1, v1⟩ := kv
    by_cases h1 : k1 = k
    · subst h1
      simp [dictSet, lookupA, h2]
    · simp [dictSet, h1, lookupA, ih]

/-- Re-assigning the value a key already holds leaves the dict unchanged. -/
theorem dictSet_self (d : ConfigDict) (k : String) (v : Value)
    (h : lookupA d k = some v) : dictSet d k v = d := by
  induction d with
  | nil => simp [lookupA] at h
  | cons kv rest ih =>
    obtain ⟨k1, v1⟩ := kv
    by_cases h1 : k1 = k
    · subst h1
      simp [lookupA] at h
      simp [dictSet, h]
    · simp [lookupA, h1] at h
      simp [dictSet, h1, ih h]

/-- A key is absent exactly when the key list does not contain it. -/
theorem lookupA_none_iff (d : ConfigDict) (k : String) :
    lookupA d k = none ↔ (d.map Prod.fst).contains k = false := by
  induction d with
  | nil => simp [lookupA]
  | cons kv rest ih =>
    obtain ⟨k1, v1⟩ := kv
    by_cases h1 : k1 = k
    · subst h1
      simp [lookupA]
    · simp [lookupA, h1, ih, Ne.symm h1]

/-- A held key is in the key list. -/
theorem lookupA_mem (d : ConfigDict) (k : String) (v : Value)
    (h : lookupA d k = some v) : k ∈ d.map Prod.fst := by
  induction d with
  | nil => simp [lookupA] at h
  | cons kv rest ih =>
    obtain ⟨k1, v1⟩ := kv
    by_cases h1 : k1 = k
    · subst h1; simp
    · simp [lookupA, h1] at h
      simp [ih h]

/-- Unfolding of dict.update over a cons. -/
theorem dictUpdate_cons (d : ConfigDict) (k : String) (v : Value) (m : ConfigDict) :
    dictUpdate d ((k, v) :: m) = dictUpdate (dictSet d k v) m := rfl

/-- Updating with a mapping that lacks key k does not change k. -/
theorem lookupA_dictUpdate_none (m : ConfigDict) (d : ConfigDict) (k : String)
    (h : lookupA m k = none) : lookupA (dictUpdate d m) k = lookupA d k := by
  induction m generalizing d with
  | nil => rfl
  | cons kv rest ih =>
    obtain ⟨k1, v1⟩ := kv
    by_cases h1 : k1 = k
    · subst h1; simp [lookupA] at h
    · simp [lookupA, h1] at h
      rw [dictUpdate_cons, ih _ h, lookupA_dictSet_ne _ _ _ _ (Ne.symm h1)]

/-- Updating with a well-formed mapping that holds v at key k makes the
result hold v at k: the incoming top-level value wins wholesale. -/
theorem lookupA_dictUpdate_some (m : ConfigDict) (d : ConfigDict) (k : String)
    (v : Value) (hnd : (m.map Prod.fst).Nodup) (h : lookupA m k = some v) :
    lookupA (dictUpdate d m) k = some v := by
  induction m generalizing d with
  | nil => simp [lookupA] at h
  | cons kv rest ih =>
    obtain ⟨k1, v1⟩ := kv
    simp only [List.map_cons, List.nodup_cons] at hnd
    by_cases h1 : k1 = k
    · subst h1
      simp [lookupA] at h
      subst h
      have hrest : lookupA rest k1 = none := by
        rw [lookupA_none_iff]
        simp [hnd.1]
      rw [dictUpdate_cons, lookupA_dictUpdate_none _ _ _ hrest, lookupA_dictSet_eq]
    · simp [lookupA, h1] at h
      rw [dictUpdate_cons]
      exact ih _ hnd.2 h

/-- Inversion of a successful item lookup: the base was a dict holding
the child at that key. -/
theorem getitemStr_ok (base : Value) (p : String) (child : Value)
    (h : getitemStr base p = .ok child) :
    ∃ d, base = .dict d ∧ lookupA d p = some child := by
  cases base <;> simp [getitemStr] at h
  next d =>
    cases hl : lookupA d p with
    | none => rw [hl] at h; cases h
    | some v =>
      rw [hl] at h
      cases h
      exact ⟨d, rfl, hl⟩

/-- On a child frame (plain values), rsetattr at a non-empty path whose
target is structurally absent either raises or returns the base
unchanged; it never creates an intermediate or final entry. -/
theorem rsetattr_missing (ks : List String) :
    ∀ (base v : Value), ks ≠ [] → lookupPath base ks = none →
      (∃ e, rsetattr false base ks v = .error e) ∨
        rsetattr false base ks v = .ok base := by
  induction ks with
  | nil => intro base v h; exact absurd rfl h
  | cons p rest ih =>
    intro base v _ hmiss
    cases rest with
    | nil =>
      cases base with
      | dict d =>
        by_cases hattr : pyHasattr false (.dict d) p
        · exact Or.inl ⟨.attributeError, by simp [rsetattr, hattr]⟩
        · have hnone : lookupA d p = none := by
            cases hl : lookupA d p with
            | none => rfl
            | some w => simp [lookupPath, hl] at hmiss
          have hmem : p ∉ d.map Prod.fst := by
            have hc := (lookupA_none_iff d p).mp hnone
            simpa using hc
          exact Or.inr (by simp [rsetattr, hattr, pyContainsKey, hmem])
      | str s =>
        by_cases hattr : pyHasattr false (.str s) p
        · exact Or.inl ⟨.attributeError, by simp [rsetattr, hattr]⟩
        · cases hc : strContainsSub s p
          · exact Or.inr (by simp [rsetattr, hattr, pyContainsKey, hc])
          · exact Or.inl ⟨.typeError, by simp [rsetattr, hattr, pyContainsKey, hc]⟩
      | int n =>
        by_cases hattr : pyHasattr false (.int n) p
        · exact Or.inl ⟨.attributeError, by simp [rsetattr, hattr]⟩
        · exact Or.inl ⟨.typeError, by simp [rsetattr, hattr, pyContainsKey]⟩
      | bool b =>
        by_cases hattr : pyHasattr false (.bool b) p
        · exact Or.inl ⟨.attributeError, by simp [rsetattr, hattr]⟩
        · exact Or.inl ⟨.typeError, by simp [rsetattr, hattr, pyContainsKey]⟩
      | vlist l =>
        by_cases hattr : pyHasattr false (.vlist l) p
        · exact Or.inl ⟨.attributeError, by simp [rsetattr, hattr]⟩
        · cases hc : (l.any (fun x => match x with | .str q => q = p | _ => false))
          · exact Or.inr (by simp [rsetattr, hattr, pyContainsKey, hc])
          · exact Or.inl ⟨.typeError, by simp [rsetattr, hattr, pyContainsKey, hc]⟩
      | method =>
        exact Or.inl ⟨.typeError, by simp [rsetattr, pyHasattr, pyContainsKey]⟩
    | cons q rest2 =>
      cases hga : pyGetattrTruthy false base p with
      | some a =>
        cases hr : rsetattr false a (q :: rest2) v with
        | error e => exact Or.inl ⟨e, by simp [rsetattr, hga, hr]⟩
        | ok x => exact Or.inr (by simp [rsetattr, hga, hr])
      | none =>
        cases hg : getitemStr base p with
        | error e => exact Or.inl ⟨e, by simp [rsetattr, hga, hg]⟩
        | ok child =>
          obtain ⟨d, rfl, hl⟩ := getitemStr_ok base p child hg
          have hmiss2 : lookupPath child (q :: rest2) = none := by
            simpa [lookupPath, hl] using hmiss
          rcases ih child v (by simp) hmiss2 with ⟨e, he⟩ | hok
          · exact Or.inl ⟨e, by simp [rsetattr, hga, hg, he]⟩
          · refine Or.inr ?_
            simp [rsetattr, hga, hg, hok, dictSet_self d p child hl]

/-- A files list containing an in-memory mapping makes the file loop
raise TypeError at the Path() constructor. -/
theorem filesLoop_mapping_err (fs : String → Option ConfigDict) :
    ∀ (l : List Source) (st : ConfigDict) (m : ConfigDict),
      Source.mapping m ∈ l → filesLoop fs st l = .error .typeError := by
  intro l
  induction l with
  | nil => intro st m h; cases h
  | cons s rest ih =>
    intro st m h
    cases s with
    | mapping m2 => simp [filesLoop, pathCtor]
    | path p =>
      have hmem : Source.mapping m ∈ rest := by
        rcases List.mem_cons.mp h with h1 | h1
        · cases h1
        · exact h1
      cases hf : fs p with
      | some m2 => simp [filesLoop, pathCtor, hf, ih _ m hmem]
      | none => simp [filesLoop, pathCtor, hf, ih _ m hmem]

/-- The environment loop only consults the environment at the derived
names of the listed paths. -/
theorem envLoop_congr (env1 env2 : String → Option String) (envPre : String) :
    ∀ (l : List (List String × Value)) (st : ConfigDict),
      (∀ pv ∈ l, env1 (Config.get_env_var_name envPre pv.1)
          = env2 (Config.get_env_var_name envPre pv.1)) →
      envLoop env1 envPre st l = envLoop env2 envPre st l := by
  intro l
  induction l with
  | nil => intro st h; rfl
  | cons pv rest ih =>
    intro st h
    obtain ⟨p, v⟩ := pv
    have hh := h (p, v) (by simp)
    simp only [envLoop, ← hh]
    cases env1 (Config.get_env_var_name envPre p) with
    | none =>
      dsimp only
      exact ih st (fun x hx => h x (List.mem_cons_of_mem _ hx))
    | some s =>
      dsimp only
      cases ConfigDict.setitem st (.list p) (.str s) with
      | ok st2 =>
        dsimp only
        exact ih st2 (fun x hx => h x (List.mem_cons_of_mem _ hx))
      | error e => rfl

/-- The accumulating fold of as_env_file appends exactly the export
lines of the string-valued leaves. -/
theorem as_env_file_foldl (envPre : String) :
    ∀ (l : List (List String × Value)) (acc : String),
      l.foldl
        (fun script pv =>
          match pv.2 with
          | .str s =>
            script ++ "export " ++ Config.get_env_var_name envPre pv.1 ++ "=" ++ s ++ "\n"
          | _ => script) acc
      = acc ++ joinAll (l.filterMap (envLine envPre)) := by
  intro l
  induction l with
  | nil => intro acc; simp [joinAll, strAppend_empty]
  | cons pv rest ih =>
    intro acc
    obtain ⟨p, v⟩ := pv
    cases v with
    | str s =>
      simp only [List.foldl_cons, List.filterMap_cons, envLine, joinAll, ih]
      simp only [strAppend_assoc]
    | int n => simp [List.filterMap_cons, envLine, joinAll, ih]
    | bool b => simp [List.filterMap_cons, envLine, joinAll, ih]
    | vlist ll => simp [List.filterMap_cons, envLine, joinAll, ih]
    | dict d => simp [List.filterMap_cons, envLine, joinAll, ih]
    | method => simp [List.filterMap_cons, envLine, joinAll, ih]

/-- A dict update with an admissible file content preserves the
db-invariant. -/
theorem dictUpdate_dbInv (st m : ConfigDict) (hm : dbFileOk m) (hst : dbInv st) :
    dbInv (dictUpdate st m) := by
  obtain ⟨hnd, hdb⟩ := hm
  rcases hdb with hnone | ⟨d, hsome, hh⟩
  · obtain ⟨dd, h1, h2⟩ := hst
    exact ⟨dd, by rw [lookupA_dictUpdate_none _ _ _ hnone, h1], h2⟩
  · exact ⟨d, lookupA_dictUpdate_some _ _ _ _ hnd hsome, hh⟩

/-- The file loop over path-only sources with admissible contents always
succeeds and preserves the db-invariant. -/
theorem filesLoop_paths (fs : String → Option ConfigDict)
    (hfs : ∀ p m, fs p = some m → dbFileOk m) :
    ∀ (l : List Source) (st : ConfigDict), (∀ s ∈ l, ∃ p, s = Source.path p) →
      dbInv st → ∃ st2, filesLoop fs st l = .ok st2 ∧ dbInv st2 := by
  intro l
  induction l with
  | nil => intro st _ hin; exact ⟨st, rfl, hin⟩
  | cons s rest ih =>
    intro st hp hinv
    obtain ⟨p, rfl⟩ := hp s (by simp)
    cases hf : fs p with
    | none =>
      obtain ⟨st2, h1, h2⟩ := ih st (fun x hx => hp x (List.mem_cons_of_mem _ hx)) hinv
      exact ⟨st2, by simp [filesLoop, pathCtor, hf, h1], h2⟩
    | some m =>
      obtain ⟨st2, h1, h2⟩ := ih (dictUpdate st m)
        (fun x hx => hp x (List.mem_cons_of_mem _ hx))
        (dictUpdate_dbInv st m (hfs p m hf) hinv)
      exact ⟨st2, by simp [filesLoop, pathCtor, hf, h1], h2⟩

/-- Path-set of db.host on a store satisfying the db-invariant descends
into the nested mapping and assigns host there. -/
theorem setitem_dbHost (st : ConfigDict) (dd : ConfigDict)
    (h1 : lookupA st "db" = some (.dict dd)) (h2 : (lookupA dd "host").isSome)
    (v : Value) :
    ConfigDict.setitem st (.list ["db", "host"]) v
      = .ok (dictSet st "db" (.dict (dictSet dd "host" v))) := by
  have hga : ¬ ("db" ∈ dictAttrNames ∨ "db" ∈ yamlTruthyAttrNames) := by decide
  have hh1 : ¬ "host" ∈ dictAttrNames := by decide
  obtain ⟨w, hw⟩ := Option.isSome_iff_exists.mp h2
  have hmem : "host" ∈ dd.map Prod.fst := lookupA_mem dd "host" w hw
  simp [ConfigDict.setitem, rsetattr, pyGetattrTruthy, pyHasattr, getitemStr,
    pyContainsKey, h1, hmem, hga, hh1]

/-- ConfigDict item access with any list key raises: an empty list fails
at the unpacking, and every non-empty list eventually reaches
dict.__getitem__ with an unhashable list key. -/
theorem getitemList_err : ∀ (ks : List String) (d : ConfigDict),
    ∃ e, ConfigDict.getitemList d ks = .error e := by
  intro ks
  induction ks with
  | nil => intro d; exact ⟨.valueError, rfl⟩
  | cons p rest ih =>
    intro d
    cases rest with
    | nil => exact ⟨.typeError, rfl⟩
    | cons q rest2 =>
      obtain ⟨e, he⟩ := ih d
      exact ⟨e, by simpa [ConfigDict.getitemList] using he⟩

/-- Evaluation of the env-file export on the example store with an empty
prefix. -/
theorem asEnvFile_c6 : Config.as_env_file ⟨c6store, ""⟩ = "export _A=hi\n" := by
  have h : flatten c6store
      = [(["a"], Value.str "hi"), (["b"], Value.int 5), (["c"], Value.bool true)] := by
    simp [flatten, c6store]
  simp only [Config.as_env_file, h]
  decide

/-- C1: the claim says that after set(["a","b"], 5) the lookup
get(["a","b"]) returns 5, with the path-get delegating the remaining
path to the child held at the first segment.  The path-set does store 5 at the
nested location, but the path-get never descends: it recurses on the
same dict with the tail of the path and finally calls dict.__getitem__
with the one-element list, raising TypeError, as does every list-keyed
get.  This contradicts the class docstring, which promises to recurse
down the nested structure to get the value: a code bug. -/
theorem C1_path_get_code_bug :
    (ConfigDict.setitem [("a", Value.dict [("b", Value.int 0)])]
        (.list ["a", "b"]) (Value.int 5)
      = .ok [("a", Value.dict [("b", Value.int 5)])])
    ∧ ConfigDict.getitem [("a", Value.dict [("b", Value.int 5)])] (.list ["a", "b"])
      = .error .typeError
    ∧ ∀ (ks : List String) (d : ConfigDict),
        ∃ e, ConfigDict.getitem d (.list ks) = .error e :=
  ⟨rfl, rfl, fun ks d => getitemList_err ks d⟩

/-- C2 counterexample: merging the mapping with a at x=9 into a store
with a at x=1, y=2 loses the sibling y entirely (the update is the plain
shallow dict.update), refuting the claimed deep-merge result that keeps
y=2. -/
theorem C2_counterexample :
    dictUpdate [("a", Value.dict [("x", Value.int 1), ("y", Value.int 2)])]
        [("a", Value.dict [("x", Value.int 9)])]
      = [("a", Value.dict [("x", Value.int 9)])]
    ∧ lookupPath (.dict (dictUpdate
        [("a", Value.dict [("x", Value.int 1), ("y", Value.int 2)])]
        [("a", Value.dict [("x", Value.int 9)])])) ["a", "y"] = none :=
  ⟨rfl, rfl⟩

/-- C2 amended: merging an incoming mapping into the store is a shallow
top-level merge: for each key held by the incoming mapping its value
replaces the existing entry wholesale (even when both sides are nested
mappings), keys absent from the incoming mapping keep their old values,
and in particular merging a at x=9 into a store with a at x=1, y=2
yields a store whose a is exactly x=9. -/
theorem C2_update_shallow (d m : ConfigDict) (k : String)
    (hnd : (m.map Prod.fst).Nodup) :
    (∀ v, lookupA m k = some v → lookupA (dictUpdate d m) k = some v)
    ∧ (lookupA m k = none → lookupA (dictUpdate d m) k = lookupA d k)
    ∧ dictUpdate [("a", Value.dict [("x", Value.int 1), ("y", Value.int 2)])]
        [("a", Value.dict [("x", Value.int 9)])]
      = [("a", Value.dict [("x", Value.int 9)])] :=
  ⟨fun v hv => lookupA_dictUpdate_some m d k v hnd hv,
   fun hv => lookupA_dictUpdate_none m d k hv, rfl⟩

/-- C2 witness: the amended shallow-merge theorem applied at the
concrete scenario of the claim. -/
theorem C2_update_shallow_witness :
    ((([("a", Value.dict [("x", Value.int 9)])] : ConfigDict).map Prod.fst).Nodup)
    ∧ lookupA (dictUpdate
        [("a", Value.dict [("x", Value.int 1), ("y", Value.int 2)])]
        [("a", Value.dict [("x", Value.int 9)])]) "a"
      = some (Value.dict [("x", Value.int 9)]) :=
  ⟨by simp,
   (C2_update_shallow [("a", Value.dict [("x", Value.int 1), ("y", Value.int 2)])]
      [("a", Value.dict [("x", Value.int 9)])] "a" (by simp)).1
     (Value.dict [("x", Value.int 9)]) rfl⟩

/-- C3: with defaults a=1 and two file sources in order [f1, f2] parsing
to a=2 and a=3, and no environment override for a, construction merges
the reversed list so that the first listed file wins: the store holds
a=2. -/
theorem C3_first_file_wins (fs : String → Option ConfigDict) (p1 p2 : String)
    (env : String → Option String) (envPre : String)
    (h1 : fs p1 = some [("a", Value.int 2)])
    (h2 : fs p2 = some [("a", Value.int 3)])
    (henv : env (Config.get_env_var_name envPre ["a"]) = none) :
    Config.init fs [Source.path p1, Source.path p2] [("a", Value.int 1)] env envPre
      = .ok ⟨[("a", Value.int 2)], envPre⟩ := by
  have hfl : filesLoop fs (dictUpdate [] [("a", Value.int 1)])
      [Source.path p1, Source.path p2].reverse = .ok [("a", Value.int 2)] := by
    simp [filesLoop, pathCtor, h1, h2, dictUpdate, dictSet]
  have hflat : flatten [("a", Value.int 1)] = [(["a"], Value.int 1)] := by
    simp [flatten]
  have hev : envLoop env envPre [("a", Value.int 2)] [(["a"], Value.int 1)]
      = .ok [("a", Value.int 2)] := by
    simp [envLoop, henv]
  simp only [Config.init, hfl, hflat, hev]

/-- C3 witness: the first-file-wins theorem applied to a concrete
filesystem with both files present and an empty environment. -/
theorem C3_first_file_wins_witness :
    (c3fs "f1" = some [("a", Value.int 2)] ∧ c3fs "f2" = some [("a", Value.int 3)]
      ∧ noEnv (Config.get_env_var_name "" ["a"]) = none)
    ∧ Config.init c3fs [Source.path "f1", Source.path "f2"] [("a", Value.int 1)]
        noEnv "" = .ok ⟨[("a", Value.int 2)], ""⟩ :=
  ⟨⟨rfl, rfl, rfl⟩, C3_first_file_wins c3fs "f1" "f2" noEnv "" rfl rfl rfl⟩

/-- C4: with defaults db.host=x, env_prefix APP and APP_DB_HOST=y set in
the environment, construction over any file sources that are well-formed
mappings supplying, when they touch db at all, a value for the path
db.host, succeeds and leaves the string y at the nested location
db.host: the environment override is applied last and wins over files
and defaults. -/
theorem C4_env_always_wins (fs : String → Option ConfigDict) (paths : List String)
    (env : String → Option String)
    (hfs : ∀ p m, fs p = some m → dbFileOk m)
    (henv : env "APP_DB_HOST" = some "y") :
    ∃ st, Config.init fs (paths.map Source.path) dbDefaults env "APP"
        = .ok ⟨st, "APP"⟩
      ∧ lookupPath (.dict st) ["db", "host"] = some (.str "y") := by
  have hinv0 : dbInv (dictUpdate [] dbDefaults) := by
    refine ⟨[("host", Value.str "x")], ?_, ?_⟩ <;> rfl
  have hsrc : ∀ s ∈ (paths.map Source.path).reverse, ∃ p, s = Source.path p := by
    intro s hs
    rw [List.mem_reverse, List.mem_map] at hs
    obtain ⟨p, _, rfl⟩ := hs
    exact ⟨p, rfl⟩
  obtain ⟨st1, hfl, dd, hdb, hhost⟩ :=
    filesLoop_paths fs hfs (paths.map Source.path).reverse
      (dictUpdate [] dbDefaults) hsrc hinv0
  have hflat : flatten dbDefaults = [(["db", "host"], Value.str "x")] := by
    simp [flatten, dbDefaults]
  have hname : Config.get_env_var_name "APP" ["db", "host"] = "APP_DB_HOST" := by
    decide
  have hset := setitem_dbHost st1 dd hdb hhost (Value.str "y")
  refine ⟨dictSet st1 "db" (.dict (dictSet dd "host" (Value.str "y"))), ?_, ?_⟩
  · simp only [Config.init, hfl, hflat, envLoop, hname, henv, hset]
  · simp [lookupPath, lookupA_dictSet_eq]

/-- C4 witness: the env-override theorem applied with no files and the
concrete environment APP_DB_HOST=y. -/
theorem C4_env_always_wins_witness :
    ((∀ p m, noFs p = some m → dbFileOk m) ∧ dbEnv "APP_DB_HOST" = some "y")
    ∧ ∃ st, Config.init noFs ([].map Source.path) dbDefaults dbEnv "APP"
        = .ok ⟨st, "APP"⟩
      ∧ lookupPath (.dict st) ["db", "host"] = some (.str "y") := by
  refine ⟨⟨?_, ?_⟩, ?_⟩
  · intro p m h
    exact nomatch h
  · rfl
  · exact C4_env_always_wins noFs [] dbEnv (fun p m h => nomatch h) rfl

/-- C5 counterexample: on the store with a as an empty nested mapping
the path-set of ["a","b"] targets a missing final key, yet it does not
fail at all: it returns successfully having silently done nothing,
refuting the claim that such a set fails with TargetMissing. -/
theorem C5_counterexample :
    ConfigDict.setitem [("a", Value.dict [])] (.list ["a", "b"]) (Value.int 5)
      = .ok [("a", Value.dict [])]
    ∧ lookupPath (.dict [("a", Value.dict [])]) ["a", "b"] = none :=
  ⟨rfl, rfl⟩

/-- C5 amended: for every path of length at least 2 whose target
location does not already exist in the store, a path-set either raises
(KeyError on a missing intermediate, TypeError on a non-indexable
intermediate, among others) or returns with the store unchanged: a
missing final key under an existing parent is silently ignored rather
than reported, and intermediate levels are never auto-created. -/
theorem C5_set_missing_no_autocreate (store : ConfigDict) (ks : List String)
    (v : Value) (hlen : 2 ≤ ks.length)
    (hmiss : lookupPath (.dict store) ks = none) :
    (∃ e, ConfigDict.setitem store (.list ks) v = .error e) ∨
      ConfigDict.setitem store (.list ks) v = .ok store := by
  obtain ⟨p, q, rest, rfl⟩ : ∃ p q rest, ks = p :: q :: rest := by
    match ks, hlen with
    | p :: q :: rest, _ => exact ⟨p, q, rest, rfl⟩
  cases hga : pyGetattrTruthy true (.dict store) p with
  | some a =>
    cases hr : rsetattr false a (q :: rest) v with
    | error e =>
      exact Or.inl ⟨e, by simp [ConfigDict.setitem, rsetattr, hga, hr]⟩
    | ok x =>
      exact Or.inr (by simp [ConfigDict.setitem, rsetattr, hga, hr])
  | none =>
    cases hg : getitemStr (.dict store) p with
    | error e =>
      exact Or.inl ⟨e, by simp [ConfigDict.setitem, rsetattr, hga, hg]⟩
    | ok child =>
      obtain ⟨d, hd, hl⟩ := getitemStr_ok _ p child hg
      cases hd
      have hmiss2 : lookupPath child (q :: rest) = none := by
        simpa [lookupPath, hl] using hmiss
      rcases rsetattr_missing (q :: rest) child v (by simp) hmiss2 with ⟨e, he⟩ | hok
      · exact Or.inl ⟨e, by simp [ConfigDict.setitem, rsetattr, hga, hg, he]⟩
      · refine Or.inr ?_
        simp [ConfigDict.setitem, rsetattr, hga, hg, hok, dictSet_self store p child hl]

/-- C5 witness: the amended theorem applied at the concrete store with a
missing final key, where the set silently no-ops. -/
theorem C5_set_missing_no_autocreate_witness :
    (2 ≤ (["a", "b"] : List String).length
      ∧ lookupPath (.dict [("a", Value.dict [])]) ["a", "b"] = none)
    ∧ ((∃ e, ConfigDict.setitem [("a", Value.dict [])] (.list ["a", "b"])
          (Value.int 5) = .error e)
      ∨ ConfigDict.setitem [("a", Value.dict [])] (.list ["a", "b"]) (Value.int 5)
          = .ok [("a", Value.dict [])]) :=
  ⟨⟨by decide, rfl⟩,
   C5_set_missing_no_autocreate [("a", Value.dict [])] ["a", "b"] (Value.int 5)
     (by decide) rfl⟩

/-- C6 counterexample: with an empty prefix the derived name for path
["a"] is _A, not A: the prefix underscore is not omitted, so the example
store produces the line export _A=hi rather than export A=hi. -/
theorem C6_counterexample :
    Config.get_env_var_name "" ["a"] = "_A"
    ∧ Config.get_env_var_name "" ["a"] ≠ "A"
    ∧ Config.as_env_file ⟨c6store, ""⟩ = "export _A=hi\n"
    ∧ Config.as_env_file ⟨c6store, ""⟩ ≠ "export A=hi\n" := by
  refine ⟨by decide, by decide, asEnvFile_c6, ?_⟩
  rw [asEnvFile_c6]
  decide

/-- C6 amended: the derived environment-variable name is the upper-cased
env_prefix and the upper-cased path segments joined with underscores,
with the underscore after the prefix always present: the name is the
upper-cased prefix prepended to the empty-prefix name, so an empty
prefix leaves a leading underscore, and the store with a=hi, b=5, c=true
and empty prefix yields the single env-file line export _A=hi. -/
theorem C6_env_name_amended :
    (∀ (envPre : String) (path : List String),
      Config.get_env_var_name envPre path
        = pyUpper envPre ++ Config.get_env_var_name "" path)
    ∧ Config.as_env_file ⟨c6store, ""⟩ = "export _A=hi\n" := by
  constructor
  · intro envPre path
    have h1 : pyUpper "" = "" := rfl
    rw [Config.get_env_var_name, Config.get_env_var_name, h1, strEmpty_append,
      strAppend_assoc]
  · exact asEnvFile_c6

/-- C7 counterexample: passing an in-memory mapping as a source entry
does not merge it; construction raises TypeError at Path(). -/
theorem C7_counterexample :
    Config.init noFs [Source.mapping [("a", Value.int 2)]] [("a", Value.int 1)]
      noEnv "" = .error .typeError := rfl

/-- C7 amended: construction accepts only file-path entries in the
sources list; any in-memory mapping entry makes the whole construction
fail with TypeError (raised by the Path constructor), instead of being
deep-merged at its precedence position. -/
theorem C7_mapping_source_fails (fs : String → Option ConfigDict)
    (files : List Source) (defaults : ConfigDict) (env : String → Option String)
    (envPre : String) (m : ConfigDict) (hm : Source.mapping m ∈ files) :
    Config.init fs files defaults env envPre = .error .typeError := by
  have hrev : Source.mapping m ∈ files.reverse := List.mem_reverse.mpr hm
  have h := filesLoop_mapping_err fs files.reverse (dictUpdate [] defaults) m hrev
  simp only [Config.init, h]

/-- C7 witness: the amended theorem applied to a one-element sources
list holding a mapping. -/
theorem C7_mapping_source_fails_witness :
    (Source.mapping [("a", Value.int 2)] ∈ [Source.mapping [("a", Value.int 2)]])
    ∧ Config.init noFs [Source.mapping [("a", Value.int 2)]] [("a", Value.int 1)]
        noEnv "" = .error .typeError :=
  ⟨by simp,
   C7_mapping_source_fails noFs [Source.mapping [("a", Value.int 2)]]
     [("a", Value.int 1)] noEnv "" [("a", Value.int 2)] (by simp)⟩

/-- C8: for every store, the env-file export is exactly the
concatenation of one export NAME=value line per flattened leaf whose
value is a string, in flatten order, with nothing contributed by number,
boolean, list (or any other non-string) leaves. -/
theorem C8_env_file_string_leaves_only (c : Config) :
    Config.as_env_file c
      = joinAll ((flatten c.store).filterMap (envLine c.envPre)) := by
  have h := as_env_file_foldl c.envPre (flatten c.store) ""
  rw [Config.as_env_file, h, strEmpty_append]

/-- C9: two constructions differing only in environment variables whose
names are not derived from a flattened leaf path of the defaults produce
identical results: only defaults-derived names are ever consulted, so no
other environment variable can influence the configuration. -/
theorem C9_env_noninterference (fs : String → Option ConfigDict)
    (files : List Source) (defaults : ConfigDict) (envPre : String)
    (env1 env2 : String → Option String)
    (h : ∀ n, env1 n ≠ env2 n →
      ∀ pv ∈ flatten defaults, Config.get_env_var_name envPre pv.1 ≠ n) :
    Config.init fs files defaults env1 envPre
      = Config.init fs files defaults env2 envPre := by
  have hagree : ∀ pv ∈ flatten defaults,
      env1 (Config.get_env_var_name envPre pv.1)
        = env2 (Config.get_env_var_name envPre pv.1) := by
    intro pv hpv
    by_contra hne
    exact (h _ hne pv hpv) rfl
  simp only [Config.init]
  cases filesLoop fs (dictUpdate [] defaults) files.reverse with
  | error e => rfl
  | ok st1 =>
    dsimp only
    rw [envLoop_congr env1 env2 envPre (flatten defaults) st1 hagree]

/-- C9 witness: the empty environment and the environment setting only
the non-derived variable ZZZ give identical constructions over defaults
a=1. -/
theorem C9_env_noninterference_witness :
    (∀ n, noEnv n ≠ zzzEnv n →
      ∀ pv ∈ flatten [("a", Value.int 1)],
        Config.get_env_var_name "" pv.1 ≠ n)
    ∧ Config.init noFs [] [("a", Value.int 1)] noEnv ""
        = Config.init noFs [] [("a", Value.int 1)] zzzEnv "" := by
  have hyp : ∀ n, noEnv n ≠ zzzEnv n →
      ∀ pv ∈ flatten [("a", Value.int 1)],
        Config.get_env_var_name "" pv.1 ≠ n := by
    intro n hn pv hpv
    have hz : n = "ZZZ" := by
      by_contra hnz
      exact hn (by simp [noEnv, zzzEnv, hnz])
    subst hz
    have hflat : flatten [("a", Value.int 1)] = [(["a"], Value.int 1)] := by
      simp [flatten]
    rw [hflat] at hpv
    simp only [List.mem_singleton] at hpv
    subst hpv
    decide
  exact ⟨hyp, C9_env_noninterference noFs [] [("a", Value.int 1)] "" noEnv zzzEnv hyp⟩

/-- C10 counterexample: construction does not leave the defaults of the
caller unchanged.  In the heap model, defaults db.host reads x before
construction; running the constructor with APP_DB_HOST=y overwrites the
nested dict object that the store shares with the defaults, so the same
read through the defaults object of the caller afterwards yields y. -/
theorem C10_counterexample :
    readPathH c10heap (HValue.ref 0) ["db", "host"] = some (.str "x")
    ∧ Config.initH c10heap 0 [] dbEnv "APP" 9 = .ok (c10heapAfter "y", 2)
    ∧ readPathH (c10heapAfter "y") (HValue.ref 0) ["db", "host"]
        = some (.str "y") :=
  ⟨rfl, rfl, rfl⟩

/-- C10 amended: construction copies only the top level of the defaults
mapping into the store; nested sub-mappings are shared by reference
between the store and the defaults of the caller, so an environment override
at a nested path mutates the defaults mapping of the caller through the
shared object: after construction with APP_DB_HOST set, both the store
and the defaults of the caller read that value at db.host, and the
top-level store entry is the same reference the defaults hold. -/
theorem C10_defaults_aliasing_amended (v : String) :
    Config.initH c10heap 0 []
        (fun n => if n = "APP_DB_HOST" then some v else none) "APP" 9
      = .ok (c10heapAfter v, 2)
    ∧ readPathH (c10heapAfter v) (HValue.ref 0) ["db", "host"] = some (.str v)
    ∧ readPathH (c10heapAfter v) (HValue.ref 2) ["db", "host"] = some (.str v)
    ∧ heapGetD (c10heapAfter v) 2 = some [("db", HValue.ref 1)]
    ∧ heapGetD (c10heapAfter v) 0 = some [("db", HValue.ref 1)] :=
  ⟨rfl, rfl, rfl, rfl, rfl⟩

end NiceConfig
